import Mathlib

/-!
Shallow embedding of the core of the where2place pixel-planner (App.js).

The embedding follows the source file `src/App.js` (the version with palette
enable/disable controls).  JavaScript strings are modelled as `List Char`,
JavaScript numbers as exact rationals (`Rat`), with the IEEE special values
`Infinity`, `-Infinity` and `NaN` represented explicitly by the type `JSNum`
on the one code path (grid-dimension computation) where they can arise.
Machine floating-point rounding is idealised to exact rational arithmetic.

The CIE-Lab colour pipeline (`srgbToLinear` / `rgbToXyz` / `xyzToLab` /
`labDistance`) computes irrational values (cube roots and the 2.4 power) in
host floating point; the nearest-colour scan is therefore embedded over an
abstract distance oracle `dist : Nat → Rat` standing for
`labDistance (rgbToLab rgb) (paletteLab i)`.  Finite IEEE doubles embed into
the rationals preserving order and equality, and `labDistance` never
produces `NaN` or `Infinity` on 8-bit colour inputs, so every statement
proved for all oracles holds in particular for the Lab distances the
program computes.
-/

namespace W2P

/-- An 8-bit RGB colour sample, one field per channel (`{ r, g, b }` objects
in the source). -/
structure RGB where
  r : Nat
  g : Nat
  b : Nat

/-- The fixed hard-coded palette `PALETTE` from App.js (33 hex strings, in
source order). -/
def PALETTE : List String :=
  ["#000000", "#1A1A1A", "#545454", "#6D6D6D", "#898989", "#BFBFBF", "#FFFFFF",
   "#6D001A", "#BE0039", "#FF4500", "#FFA800", "#FFD635", "#FFF8B8",
   "#00A368", "#00CC78", "#7EED56", "#00756F", "#009EAA", "#00CCC0",
   "#2450A4", "#3690EA", "#51E9F4", "#493AC1", "#6A5CFF", "#94B3FF",
   "#811E9F", "#B44AC0", "#E4ABFF", "#DE107F", "#FF99AA",
   "#6D482F", "#9C6926", "#FFB470"]

/-- `PALETTE[i]` (JavaScript indexing; the scan only ever produces in-range
indices, the default is never reached on those). -/
def paletteAt (i : Nat) : String := PALETTE.getD i ""

/-- `enabledIndices` from App.js: the indices `i < paletteEnabled.length`
whose flag is truthy, in increasing order
(`for i; if (paletteEnabled[i]) arr.push(i)`). -/
def enabledIndices (flags : List Bool) : List Nat :=
  (List.range flags.length).filter (fun i => flags.getD i false)

/-- The scan pool of `pickNearest`:
`enabledIndices.length ? enabledIndices : [...PALETTE.keys()]`. -/
def activePool (flags : List Bool) : List Nat :=
  if enabledIndices flags = [] then List.range PALETTE.length else enabledIndices flags

/-- One iteration of the `pickNearest` loop: state `(best, idx)` starts at
`(Infinity, 0)` (`none` plays `Infinity`; every oracle value is finite, as is
every actual Lab distance), and `if (d < best) { best = d; idx = i; }`. -/
def scanStep (dist : Nat → Rat) : (Option Rat × Nat) → Nat → (Option Rat × Nat)
  | (none, _), i => (some (dist i), i)
  | (some b, j), i => if dist i < b then (some (dist i), i) else (some b, j)

/-- The index produced by the `pickNearest` linear scan over a pool. -/
def pickIdx (dist : Nat → Rat) (pool : List Nat) : Nat :=
  (pool.foldl (scanStep dist) (none, 0)).2

/-- `pickNearest` from App.js: scan the active pool keeping the strictly
smallest distance, then return `PALETTE[idx]`.  `dist i` is the oracle for
`labDistance(rgbToLab(rgb), paletteLab[i])`. -/
def pickNearest (dist : Nat → Rat) (flags : List Bool) : String :=
  paletteAt (pickIdx dist (activePool flags))

/-- A JavaScript number in the grid-dimension computation: a finite (exact)
rational or one of the IEEE special values.  `Rat` has no negative zero; the
divisors reaching `jsDiv` in this program are nonnegative, where the sign of
zero is immaterial. -/
inductive JSNum where
  | fin : Rat → JSNum
  | inf : JSNum
  | ninf : JSNum
  | nan : JSNum
deriving DecidableEq

/-- JavaScript `/` on `JSNum` (exact on finite operands). -/
def jsDiv : JSNum → JSNum → JSNum
  | .nan, _ => .nan
  | _, .nan => .nan
  | .fin a, .fin b =>
      if b = 0 then (if a = 0 then .nan else if 0 < a then .inf else .ninf)
      else .fin (a / b)
  | .fin _, .inf => .fin 0
  | .fin _, .ninf => .fin 0
  | .inf, .fin b => if 0 ≤ b then .inf else .ninf
  | .ninf, .fin b => if 0 ≤ b then .ninf else .inf
  | .inf, .inf => .nan
  | .inf, .ninf => .nan
  | .ninf, .inf => .nan
  | .ninf, .ninf => .nan

/-- JavaScript `Math.round` on a finite value: round half toward positive
infinity. -/
def jsRound (q : Rat) : Int := ⌊q + 1 / 2⌋

/-- `Math.round` on `JSNum` (`round(±Infinity) = ±Infinity`,
`round(NaN) = NaN`). -/
def jsRoundN : JSNum → JSNum
  | .fin q => .fin ((jsRound q : Int) : Rat)
  | x => x

/-- JavaScript `Math.max` on `JSNum` (`NaN` absorbs). -/
def jsMaxN : JSNum → JSNum → JSNum
  | .nan, _ => .nan
  | _, .nan => .nan
  | .inf, _ => .inf
  | _, .inf => .inf
  | .ninf, y => y
  | x, .ninf => x
  | .fin a, .fin b => .fin (max a b)

/-- The decoded source image: `naturalWidth`, `naturalHeight` and the pixel
samples delivered by the (external) image-decode collaborator. -/
structure SrcImage where
  w : Nat
  h : Nat
  pix : Nat → Nat → RGB

/-- The quantized output held in component state: `gridW`, `gridH` and the
flat row-major `gridColors` array of hex strings. -/
structure Grid where
  gridW : Int
  gridH : Int
  gridColors : List String
deriving DecidableEq

/-- Outcome of one `processImage` call.  `skipped` is the early
`if (!img) return` (previous grid state retained).  `dimError` records a
non-finite computed dimension: the source then feeds it to the canvas
collaborators (`off.height = H; ...; getImageData(0, 0, W, H)`), whose WebIDL
integer coercion turns `Infinity`/`NaN` into `0`, on which `getImageData`
throws `IndexSizeError` — the call neither completes nor retains the previous
grid, and the `setGridW(W); setGridH(H)` writes have already fired. -/
inductive ProcResult where
  | skipped : Grid → ProcResult
  | ok : Grid → ProcResult
  | dimError : JSNum → JSNum → ProcResult
deriving DecidableEq

/-- Modelled from the spec: the downsample `drawImage(img, 0, 0, W, H)` with
`imageSmoothingEnabled = false` is a host canvas collaborator; the spec fixes
its policy as nearest-neighbor resampling from source to target dimensions.
None of the grid-level statements below depend on the particular sample
positions. -/
def sampleNN (im : SrcImage) (W H x y : Nat) : RGB :=
  im.pix (x * im.w / W) (y * im.h / H)

/-- The pixel loop of `processImage`: `colors[y*W+x] = pickNearest({r,g,b})`,
flat row-major (cell `i` has `x = i % W`, `y = i / W`).  `dist` maps a
sampled colour to its Lab-distance oracle. -/
def gridCells (dist : RGB → Nat → Rat) (flags : List Bool) (im : SrcImage)
    (W H : Nat) : List String :=
  (List.range (H * W)).map
    (fun i => pickNearest (dist (sampleNN im W H (i % W) (i / W))) flags)

/-- The tail of `processImage` after `W` and `H` are computed: with both
dimensions finite the canvas is built and every cell quantized; otherwise the
canvas read throws (see `ProcResult.dimError`).  On the finite branch the
values are integers (`max(1, Math.round ...)`), extracted with `Int.floor`. -/
def procWithDims (dist : RGB → Nat → Rat) (flags : List Bool) (im : SrcImage) :
    JSNum → JSNum → ProcResult
  | .fin wq, .fin hq =>
      .ok ⟨⌊wq⌋, ⌊hq⌋, gridCells dist flags im (⌊wq⌋).toNat (⌊hq⌋).toNat⟩
  | W, H => .dimError W H

/-- `processImage` from App.js:
`if (!img) return;` then
`aspect = naturalWidth / naturalHeight`,
`W = Math.max(1, Math.round(pixelsAcross))`,
`H = Math.max(1, Math.round(W / aspect))`, then the quantization loop. -/
def processImage (dist : RGB → Nat → Rat) (flags : List Bool)
    (img : Option SrcImage) (pixelsAcross : Rat) (prev : Grid) : ProcResult :=
  match img with
  | none => .skipped prev
  | some im =>
      let aspect := jsDiv (.fin (im.w : Rat)) (.fin (im.h : Rat))
      let W := jsMaxN (.fin 1) (jsRoundN (.fin pixelsAcross))
      let H := jsMaxN (.fin 1) (jsRoundN (jsDiv W aspect))
      procWithDims dist flags im W H

/-- Projection of a completed processing run onto the grid dimensions. -/
def procDims : ProcResult → Option (Int × Int)
  | .ok g => some (g.gridW, g.gridH)
  | _ => none

/-- A pointer event: client coordinates and the stage's own bounding box
origin (`e.currentTarget.getBoundingClientRect()` — the box moves with the
pan translation, so coordinates relative to it are pan-independent). -/
structure MouseEvt where
  clientX : Rat
  clientY : Rat
  rectLeft : Rat
  rectTop : Rat

/-- The component state read or written by the handlers modelled here.
`genesisX`/`genesisY` are kept as integers (the transient `''`/`'-'` input
strings coerce to `0` in the readout and are presentation chrome). -/
structure AppState where
  img : Option SrcImage
  pixelsAcross : Rat
  zoom : Int
  genesisX : Int
  genesisY : Int
  gridW : Int
  gridH : Int
  gridColors : List String
  hover : Int × Int
  mousePx : Rat × Rat
  dragOffset : Rat × Rat
  dragStart : Rat × Rat
  isDragging : Bool
  paletteEnabled : List Bool

/-- `onMouseMove` from App.js: while dragging, accumulate the pan offset and
re-anchor; otherwise compute the hovered cell by floor division of the
stage-relative pointer position by `zoom`, with sentinel `(-1, -1)` outside
`[0, gridW) × [0, gridH)`. -/
def onMouseMove (s : AppState) (e : MouseEvt) : AppState :=
  if s.isDragging then
    { s with
        dragOffset := (s.dragOffset.1 + (e.clientX - s.dragStart.1),
                       s.dragOffset.2 + (e.clientY - s.dragStart.2)),
        dragStart := (e.clientX, e.clientY) }
  else
    let pxX := e.clientX - e.rectLeft
    let pxY := e.clientY - e.rectTop
    let x : Int := ⌊pxX / (s.zoom : Rat)⌋
    let y : Int := ⌊pxY / (s.zoom : Rat)⌋
    let s1 := { s with mousePx := (pxX, pxY) }
    if 0 ≤ x ∧ 0 ≤ y ∧ x < s.gridW ∧ y < s.gridH then
      { s1 with hover := (x, y) }
    else
      { s1 with hover := (-1, -1) }

/-- `processImage` as invoked from component state (it closes over `img`,
`pixelsAcross`, `paletteEnabled` and the previous grid fields). -/
def appProcess (dist : RGB → Nat → Rat) (s : AppState) : ProcResult :=
  processImage dist s.paletteEnabled s.img s.pixelsAcross
    ⟨s.gridW, s.gridH, s.gridColors⟩

/-- The world coordinate shown by the hover tooltip:
`(Number(genesisX) || 0) + hover.x` and likewise for `y`. -/
def tooltipWorld (s : AppState) : Int × Int :=
  (s.genesisX + s.hover.1, s.genesisY + s.hover.2)

/-- `toggleColour` from App.js, on the boolean vector:
`if (lockPalette) return;` then `next[idx] = !next[idx]` on a copy.
JavaScript array semantics: a negative index writes a non-index property and
leaves the vector (its length and indexed reads) unchanged; an index at or
past the length extends the array to `idx + 1` entries, the fresh slots being
holes (`undefined`, read back falsy — modelled as `false`, which this
program's reads cannot distinguish) and slot `idx` becoming
`!undefined = true`. -/
def toggleColour (lockPalette : Bool) (prev : List Bool) (idx : Int) : List Bool :=
  if lockPalette then prev
  else if idx < 0 then prev
  else if idx.toNat < prev.length then
    prev.set idx.toNat (!(prev.getD idx.toNat false))
  else
    prev ++ List.replicate (idx.toNat - prev.length) false ++ [true]

/-- The whitespace class trimmed by `String.prototype.trim` (ASCII part). -/
def jsWs (c : Char) : Bool :=
  c = ' ' ∨ c = '\t' ∨ c = '\n' ∨ c = '\r' ∨ c = '\x0b' ∨ c = '\x0c'

/-- JavaScript `code.trim()` on a character list. -/
def jsTrim (l : List Char) : List Char :=
  ((l.dropWhile jsWs).reverse.dropWhile jsWs).reverse

/-- `clamp(v, min, max) = Math.max(min, Math.min(max, v))` from App.js,
specialised to the integer values flowing through the settings paths. -/
def clamp (v lo hi : Int) : Int := max lo (min hi v)

/-- The four-field settings record carried by the share code
(`{v:1, pixelsAcross, genesisX, genesisY, zoom}`). -/
structure Settings where
  pixelsAcross : Int
  genesisX : Int
  genesisY : Int
  zoom : Int
deriving DecidableEq

/-- JSON values in the subset exchanged by the settings codec: scalars and a
flat object with scalar members.  Numbers are modelled as exact integers (the
codec's own payloads are integer-valued); strings carry no escapes. -/
inductive JVal where
  | jnull : JVal
  | jbool : Bool → JVal
  | num : Int → JVal
  | str : List Char → JVal
  | obj : List (List Char × JVal) → JVal

/-- The `\x7b` character (object-opening brace). -/
def lbCh : Char := Char.ofNat 123

/-- The `\x7d` character (object-closing brace). -/
def rbCh : Char := Char.ofNat 125

/-- The double-quote character. -/
def qCh : Char := Char.ofNat 34

/-- The `=` padding character of base64. -/
def eqCh : Char := Char.ofNat 61

/-- JSON insignificant whitespace. -/
def jsonWs (c : Char) : Bool :=
  c = ' ' ∨ c = '\t' ∨ c = '\n' ∨ c = '\r'

/-- Skip insignificant whitespace. -/
def skipWs (l : List Char) : List Char := l.dropWhile jsonWs

/-- Decimal value of a digit run (most significant first). -/
def digitsVal (l : List Char) : Nat :=
  l.foldl (fun a c => 10 * a + (c.toNat - 48)) 0

/-- Parse a nonempty run of decimal digits. -/
def parseNat (l : List Char) : Option (Nat × List Char) :=
  let ds := l.takeWhile Char.isDigit
  if ds = [] then none else some (digitsVal ds, l.drop ds.length)

/-- Parse an optionally negated integer literal. -/
def parseIntLit (l : List Char) : Option (Int × List Char) :=
  match l with
  | c :: rest =>
      if c = '-' then (parseNat rest).map (fun p => (-(p.1 : Int), p.2))
      else (parseNat l).map (fun p => ((p.1 : Int), p.2))
  | [] => none

/-- Parse a quoted string literal (escape-free subset). -/
def parseStringLit : List Char → Option (List Char × List Char)
  | c :: rest =>
      if c = qCh then
        let s := rest.takeWhile (fun d => d ≠ qCh)
        match rest.drop s.length with
        | d :: r => if d = qCh then some (s, r) else none
        | [] => none
      else none
  | [] => none

/-- Parse a scalar JSON value. -/
def parseScalar (l : List Char) : Option (JVal × List Char) :=
  match skipWs l with
  | [] => none
  | c :: rest =>
      if c = qCh then (parseStringLit (c :: rest)).map (fun p => (JVal.str p.1, p.2))
      else if c = '-' ∨ c.isDigit then
        (parseIntLit (c :: rest)).map (fun p => (JVal.num p.1, p.2))
      else if c = 't' then
        (if rest.take 3 = ['r', 'u', 'e'] then some (JVal.jbool true, rest.drop 3) else none)
      else if c = 'f' then
        (if rest.take 4 = ['a', 'l', 's', 'e'] then some (JVal.jbool false, rest.drop 4) else none)
      else if c = 'n' then
        (if rest.take 3 = ['u', 'l', 'l'] then some (JVal.jnull, rest.drop 3) else none)
      else none

/-- Parse a nonempty comma-separated member list up to and including the
closing brace.  Fuel bounds the member count; callers pass at least the
input length, which always suffices since each member consumes characters. -/
def parseMembers : Nat → List Char → Option (List (List Char × JVal) × List Char)
  | 0, _ => none
  | fuel + 1, l =>
      match parseStringLit (skipWs l) with
      | none => none
      | some (k, r1) =>
          match skipWs r1 with
          | [] => none
          | c :: r2 =>
              if c = ':' then
                match parseScalar r2 with
                | none => none
                | some (v, r3) =>
                    match skipWs r3 with
                    | [] => none
                    | d :: r4 =>
                        if d = ',' then
                          match parseMembers fuel r4 with
                          | some (fs, r5) => some ((k, v) :: fs, r5)
                          | none => none
                        else if d = rbCh then some ([(k, v)], r4)
                        else none
              else none

/-- Modelled from the spec: `JSON.parse` is a host builtin; the settings wire
contract (§6) fixes the payloads as JSON.  This parser covers the subset the
codec exchanges — scalars and one flat object of scalar members, integer
numerals, escape-free strings — and rejects everything else (which the caller
treats exactly like a `JSON.parse` throw). -/
def jsonParse (l : List Char) : Option JVal :=
  match skipWs l with
  | [] => none
  | c :: rest =>
      if c = lbCh then
        match skipWs rest with
        | [] => none
        | d :: r2 =>
            if d = rbCh then (if skipWs r2 = [] then some (JVal.obj []) else none)
            else
              match parseMembers (rest.length + 1) rest with
              | some (fs, r) => if skipWs r = [] then some (JVal.obj fs) else none
              | none => none
      else
        match parseScalar (c :: rest) with
        | some (v, r) => if skipWs r = [] then some v else none
        | none => none

/-- The base64 alphabet. -/
def b64Alphabet : List Char :=
  "ABCDEFGHIJKLMNOPQRSTUVWXYZabcdefghijklmnopqrstuvwxyz0123456789+/".data

/-- Sextet to base64 character. -/
def b64c (n : Nat) : Char := b64Alphabet.getD n 'A'

/-- Position of a character in a list. -/
def b64idx : List Char → Char → Option Nat
  | [], _ => none
  | a :: as, c => if a = c then some 0 else (b64idx as c).map (· + 1)

/-- Base64 character to sextet. -/
def b64inv (c : Char) : Option Nat := b64idx b64Alphabet c

/-- `btoa` on a byte sequence: standard base64 with `=` padding. -/
def btoaBytes : List Nat → List Char
  | [] => []
  | [a] => [b64c (a / 4), b64c (a % 4 * 16), eqCh, eqCh]
  | [a, b] => [b64c (a / 4), b64c (a % 4 * 16 + b / 16), b64c (b % 16 * 4), eqCh]
  | a :: b :: d :: rest =>
      b64c (a / 4) :: b64c (a % 4 * 16 + b / 16) ::
      b64c (b % 16 * 4 + d / 64) :: b64c (d % 64) :: btoaBytes rest

/-- `atob` on a character sequence, producing bytes; `none` models the
`InvalidCharacterError` throw on anything that is not canonically padded
base64. -/
def atobBytes : List Char → Option (List Nat)
  | [] => some []
  | c1 :: c2 :: c3 :: c4 :: rest =>
      match b64inv c1, b64inv c2 with
      | some s1, some s2 =>
          if c3 = eqCh then
            if c4 = eqCh ∧ rest = [] then some [s1 * 4 + s2 / 16] else none
          else
            match b64inv c3 with
            | some s3 =>
                if c4 = eqCh then
                  if rest = [] then some [s1 * 4 + s2 / 16, s2 % 16 * 16 + s3 / 4]
                  else none
                else
                  match b64inv c4 with
                  | some s4 =>
                      match atobBytes rest with
                      | some bs =>
                          some ((s1 * 4 + s2 / 16) :: (s2 % 16 * 16 + s3 / 4) ::
                                (s3 % 4 * 64 + s4) :: bs)
                      | none => none
                  | none => none
            | none => none
      | _, _ => none
  | _ => none

/-- `unescape(encodeURIComponent(s))`: the UTF-8 byte sequence of `s`.  Every
string this codec produces is ASCII, where the bytes are the character
codes. -/
def charsToBytes (l : List Char) : List Nat := l.map Char.toNat

/-- `decodeURIComponent(escape(bytes))` on the ASCII range: bytes back to
characters.  Bytes of 128 and above would enter multi-byte UTF-8 decoding by
the host (irrelevant to the ASCII wire format) and are rejected here. -/
def asciiChars (bs : List Nat) : Option (List Char) :=
  if bs.all (fun b => b < 128) then some (bs.map Char.ofNat) else none

/-- Decimal digits of a natural number, most significant first. -/
def natToChars (n : Nat) : List Char :=
  if _h : n < 10 then [Char.ofNat (48 + n)]
  else natToChars (n / 10) ++ [Char.ofNat (48 + n % 10)]
  termination_by n
  decreasing_by exact Nat.div_lt_self (by omega) (by norm_num)

/-- The decimal numeral `JSON.stringify` emits for an integer-valued
number. -/
def intToChars (n : Int) : List Char :=
  if n < 0 then '-' :: natToChars n.natAbs else natToChars n.toNat

/-- One `"key":numeral` member followed by a continuation (which begins with
either the separating comma or the closing brace). -/
def memberInt (k : String) (m : Int) (rest : List Char) : List Char :=
  qCh :: (k.data ++ qCh :: ':' :: (intToChars m ++ rest))

/-- Modelled from the spec: `JSON.stringify` is a host builtin; for the
object literal `{v:1, pixelsAcross, genesisX, genesisY, zoom}` with
integer-valued fields it emits exactly this brace-wrapped, comma-separated
member sequence in insertion order, with no whitespace. -/
def stringifyPayload (r : Settings) : List Char :=
  lbCh :: memberInt "v" 1 (',' ::
    memberInt "pixelsAcross" r.pixelsAcross (',' ::
      memberInt "genesisX" r.genesisX (',' ::
        memberInt "genesisY" r.genesisY (',' ::
          memberInt "zoom" r.zoom [rbCh]))))

/-- `exportSettings` from App.js: `btoa(unescape(encodeURIComponent(
JSON.stringify({v:1, pixelsAcross, genesisX, genesisY, zoom}))))`.  (Copying
the code to the clipboard and into the text field is presentation chrome.) -/
def exportSettings (r : Settings) : List Char :=
  btoaBytes (charsToBytes (stringifyPayload r))

/-- JavaScript property read `data[k]` on a parsed object: with duplicate
keys the later member wins, a missing key reads `undefined` (`none`). -/
def jsField (fs : List (List Char × JVal)) (k : List Char) : Option JVal :=
  fs.foldl (fun acc p => if p.1 = k then some p.2 else acc) none

/-- The strict check `data.v !== 1` (negated): only the exact number `1`
passes. -/
def isVersion1 : Option JVal → Bool
  | some (.num n) => n == 1
  | _ => false

/-- The decode pipeline of `applySettings`:
`JSON.parse(decodeURIComponent(escape(atob(code))))`; `none` is the caught
exception path. -/
def decodeShare (code : List Char) : Option JVal :=
  match atobBytes code with
  | none => none
  | some bytes =>
      match asciiChars bytes with
      | none => none
      | some chars => jsonParse chars

/-- `if (typeof data.pixelsAcross === "number")
setPixelsAcross(clamp(Math.round(data.pixelsAcross), 5, 400))`
(`Math.round` is the identity on the integer-valued numbers modelled). -/
def applyPix (fs : List (List Char × JVal)) (s : Settings) : Settings :=
  match jsField fs "pixelsAcross".data with
  | some (.num n) => { s with pixelsAcross := clamp n 5 400 }
  | _ => s

/-- `if (typeof data.genesisX === "number") setGenesisX(Math.round(data.genesisX))`. -/
def applyGx (fs : List (List Char × JVal)) (s : Settings) : Settings :=
  match jsField fs "genesisX".data with
  | some (.num n) => { s with genesisX := n }
  | _ => s

/-- `if (typeof data.genesisY === "number") setGenesisY(Math.round(data.genesisY))`. -/
def applyGy (fs : List (List Char × JVal)) (s : Settings) : Settings :=
  match jsField fs "genesisY".data with
  | some (.num n) => { s with genesisY := n }
  | _ => s

/-- `if (typeof data.zoom === "number") setZoom(clamp(Math.round(data.zoom), 1, 64))`. -/
def applyZoom (fs : List (List Char × JVal)) (s : Settings) : Settings :=
  match jsField fs "zoom".data with
  | some (.num n) => { s with zoom := clamp n 1 64 }
  | _ => s

/-- `applySettings` from App.js.  The boolean records whether the
`alert("Invalid or unsupported code")` branch ran; on that branch no state
changed.  An empty (after trimming) code returns before the `try` block.
The `!data || typeof data !== "object"` and `data.v !== 1` guards throw into
the catch; afterwards the four fields are applied one by one, each guarded
only by its own `typeof`. -/
def applySettings (shareCode : List Char) (s : Settings) : Settings × Bool :=
  let code := jsTrim shareCode
  if code = [] then (s, false)
  else
    match decodeShare code with
    | some (.obj fs) =>
        if isVersion1 (jsField fs "v".data) then
          (applyZoom fs (applyGy fs (applyGx fs (applyPix fs s))), false)
        else (s, true)
    | _ => (s, true)

/-! Helper lemmas. -/

theorem dropWhile_eq_nil_of_all {p : Char → Bool} :
    ∀ l : List Char, (∀ c ∈ l, p c = true) → l.dropWhile p = [] := by
  intro l h
  induction l with
  | nil => rfl
  | cons c t ih =>
      rw [List.dropWhile_cons, h c (by simp)]
      exact ih (fun d hd => h d (by simp [hd]))

theorem dropWhile_eq_self_of_all {p : Char → Bool} :
    ∀ l : List Char, (∀ c ∈ l, p c = false) → l.dropWhile p = l := by
  intro l h
  cases l with
  | nil => rfl
  | cons c t => simp [List.dropWhile_cons, h c (by simp)]

theorem jsTrim_eq_nil (l : List Char) (h : ∀ c ∈ l, jsWs c = true) :
    jsTrim l = [] := by
  unfold jsTrim
  rw [dropWhile_eq_nil_of_all l h]
  rfl

theorem jsTrim_eq_self (l : List Char) (h : ∀ c ∈ l, jsWs c = false) :
    jsTrim l = l := by
  unfold jsTrim
  rw [dropWhile_eq_self_of_all l h,
      dropWhile_eq_self_of_all l.reverse (fun c hc => h c (List.mem_reverse.mp hc)),
      List.reverse_reverse]

theorem procWithDims_ne_skipped (dist : RGB → Nat → Rat) (flags : List Bool)
    (im : SrcImage) (W H : JSNum) (g : Grid) :
    procWithDims dist flags im W H ≠ ProcResult.skipped g := by
  cases W <;> cases H <;> simp [procWithDims]

theorem onMouseMove_hover (s : AppState) (e : MouseEvt) :
    (onMouseMove s e).hover =
      if s.isDragging then s.hover
      else
        if 0 ≤ ⌊(e.clientX - e.rectLeft) / (s.zoom : Rat)⌋ ∧
            0 ≤ ⌊(e.clientY - e.rectTop) / (s.zoom : Rat)⌋ ∧
            ⌊(e.clientX - e.rectLeft) / (s.zoom : Rat)⌋ < s.gridW ∧
            ⌊(e.clientY - e.rectTop) / (s.zoom : Rat)⌋ < s.gridH then
          (⌊(e.clientX - e.rectLeft) / (s.zoom : Rat)⌋,
           ⌊(e.clientY - e.rectTop) / (s.zoom : Rat)⌋)
        else (-1, -1) := by
  unfold onMouseMove
  split
  · rfl
  · dsimp only
    by_cases hc : 0 ≤ ⌊(e.clientX - e.rectLeft) / (s.zoom : Rat)⌋ ∧
        0 ≤ ⌊(e.clientY - e.rectTop) / (s.zoom : Rat)⌋ ∧
        ⌊(e.clientX - e.rectLeft) / (s.zoom : Rat)⌋ < s.gridW ∧
        ⌊(e.clientY - e.rectTop) / (s.zoom : Rat)⌋ < s.gridH
    · rw [if_pos hc, if_pos hc]
    · rw [if_neg hc, if_neg hc]

theorem getD_set_self :
    ∀ (l : List Bool) (n : Nat), n < l.length → ∀ b, (l.set n b).getD n false = b := by
  intro l
  induction l with
  | nil => simp
  | cons a t ih =>
      intro n hn b
      cases n with
      | zero => rfl
      | succ m => exact ih m (by simpa using hn) b

theorem getD_set_ne :
    ∀ (l : List Bool) (n j : Nat), n ≠ j → ∀ b, (l.set n b).getD j false = l.getD j false := by
  intro l
  induction l with
  | nil => simp
  | cons a t ih =>
      intro n j hnj b
      cases n with
      | zero =>
          cases j with
          | zero => exact absurd rfl hnj
          | succ m => rfl
      | succ m =>
          cases j with
          | zero => rfl
          | succ m' => exact ih m m' (by omega) b

theorem getD_append_self :
    ∀ (l : List Bool) (b : Bool), (l ++ [b]).getD l.length false = b := by
  intro l b
  induction l with
  | nil => rfl
  | cons a t ih =>
      simp only [List.cons_append, List.length_cons, List.getD_cons_succ]
      exact ih

/-! Claim theorems (easy group). -/

/-- C2: for every input colour (any distance oracle it induces), matching
with every palette entry disabled returns the same palette colour as matching
with every entry enabled — the empty enabled pool falls back to the full
ordered palette. -/
theorem c2_disable_all_eq_enable_all (dist : Nat → Rat) :
    pickNearest dist (List.replicate PALETTE.length false) =
      pickNearest dist (List.replicate PALETTE.length true) := by
  unfold pickNearest pickIdx
  rw [show activePool (List.replicate PALETTE.length false) =
        activePool (List.replicate PALETTE.length true) from by decide]

/-- C6 counterexample: with a present source image of width 0 (height 1),
`processImage` is not skipped and the previous grid (dimensions 7×3) is not
retained: the run overwrites `gridW` with `max(1, round(50)) = 50` and drives
the height computation to `Infinity`, which the canvas read rejects. -/
theorem c6_counterexample :
    processImage (fun _ _ => 0) (List.replicate 33 true)
        (some ⟨0, 1, fun _ _ => ⟨0, 0, 0⟩⟩) 50 ⟨7, 3, []⟩ =
      ProcResult.dimError (JSNum.fin 50) JSNum.inf ∧
    ProcResult.dimError (JSNum.fin 50) JSNum.inf ≠
      ProcResult.skipped ⟨7, 3, []⟩ := by
  constructor
  · have h50 : jsRound (50 : Rat) = 50 := by
      unfold jsRound
      rw [show (50 : Rat) + 1 / 2 = ((50 : Int) : Rat) + 1 / 2 by norm_num,
          Int.floor_int_add]
      norm_num [Int.floor_eq_zero_iff]
    simp only [processImage, jsDiv, jsRoundN, jsMaxN, h50]
    norm_num
    simp [jsDiv, jsRoundN, jsMaxN, procWithDims]
  · simp

/-- C6 (amended): processing is a defined no-op retaining the previous grid
exactly when no source image is present (`if (!img) return`); with a present
image — whatever its dimensions — the run is never skipped, so the code has
no zero-dimension guard. -/
theorem c6_amended_skip_iff_no_image (dist : RGB → Nat → Rat) (flags : List Bool)
    (tc : Rat) (prev : Grid) :
    processImage dist flags none tc prev = ProcResult.skipped prev ∧
    ∀ (im : SrcImage) (g : Grid),
      processImage dist flags (some im) tc prev ≠ ProcResult.skipped g := by
  refine ⟨rfl, fun im g => ?_⟩
  simp only [processImage]
  exact procWithDims_ne_skipped dist flags im _ _ g

/-- C7 counterexample: toggling index 33 of the 33-entry enabled vector does
not fail and does not leave the vector unchanged — it grows it to 34
entries. -/
theorem c7_counterexample :
    (toggleColour false (List.replicate 33 true) 33).length = 34 ∧
    toggleColour false (List.replicate 33 true) 33 ≠ List.replicate 33 true := by
  constructor
  · decide
  · decide

/-- C7 (amended): `toggleColour` never fails.  With the palette locked, or at
a negative index (a non-index property write), the vector is unchanged.  At
an in-range index exactly that flag is flipped and the length is preserved.
At an index at or past the length the vector is extended to `idx + 1`
entries with the slot at `idx` set to `true` (so an out-of-range toggle
changes the vector's length instead of failing). -/
theorem c7_amended_toggleColour (prev : List Bool) (idx : Int) :
    toggleColour true prev idx = prev ∧
    (idx < 0 → toggleColour false prev idx = prev) ∧
    (0 ≤ idx → idx.toNat < prev.length →
      (toggleColour false prev idx).length = prev.length ∧
      (toggleColour false prev idx).getD idx.toNat false =
        !(prev.getD idx.toNat false) ∧
      ∀ j : Nat, j ≠ idx.toNat →
        (toggleColour false prev idx).getD j false = prev.getD j false) ∧
    (0 ≤ idx → prev.length ≤ idx.toNat →
      (toggleColour false prev idx).length = idx.toNat + 1 ∧
      (toggleColour false prev idx).getD idx.toNat false = true) := by
  refine ⟨rfl, fun hneg => ?_, fun hpos hlt => ?_, fun hpos hge => ?_⟩
  · simp [toggleColour, hneg]
  · have hnneg : ¬ idx < 0 := by omega
    refine ⟨?_, ?_, ?_⟩
    · simp [toggleColour, hnneg, hlt]
    · simp only [toggleColour, if_neg Bool.false_ne_true, if_neg hnneg, if_pos hlt]
      exact getD_set_self prev idx.toNat hlt _
    · intro j hj
      simp only [toggleColour, if_neg Bool.false_ne_true, if_neg hnneg, if_pos hlt]
      exact getD_set_ne prev idx.toNat j (fun h => hj h.symm) _
  · have hnneg : ¬ idx < 0 := by omega
    have hnlt : ¬ idx.toNat < prev.length := by omega
    constructor
    · simp only [toggleColour, if_neg Bool.false_ne_true, if_neg hnneg, if_neg hnlt]
      simp [List.length_append]
      omega
    · simp only [toggleColour, if_neg Bool.false_ne_true, if_neg hnneg, if_neg hnlt]
      have hlen : (prev ++ List.replicate (idx.toNat - prev.length) false).length
          = idx.toNat := by simp; omega
      calc (prev ++ List.replicate (idx.toNat - prev.length) false ++ [true]).getD
            idx.toNat false
          = (prev ++ List.replicate (idx.toNat - prev.length) false ++ [true]).getD
            (prev ++ List.replicate (idx.toNat - prev.length) false).length false := by
            rw [hlen]
        _ = true := getD_append_self _ true

/-- C7 witness: flipping the in-range index 1 of `[true, false]` keeps the
length and flips exactly that flag. -/
theorem c7_witness :
    (0 : Int) ≤ 1 ∧ (1 : Int).toNat < ([true, false] : List Bool).length ∧
    (toggleColour false [true, false] 1).length = 2 ∧
    (toggleColour false [true, false] 1).getD 1 false = true ∧
    (toggleColour false [true, false] 1).getD 0 false = true := by
  refine ⟨by decide, by decide, ?_, ?_, ?_⟩
  · exact ((c7_amended_toggleColour [true, false] 1).2.2.1 (by decide) (by decide)).1
  · have h := ((c7_amended_toggleColour [true, false] 1).2.2.1 (by decide) (by decide)).2.1
    simpa using h
  · have h := ((c7_amended_toggleColour [true, false] 1).2.2.1 (by decide)
      (by decide)).2.2 0 (by decide)
    simpa using h

/-- C9: the origin offset (`genesisX`, `genesisY`) influences neither the
quantized grid produced by `processImage` nor the hovered cell computed by
`onMouseMove`; it is added only in the displayed world-coordinate readout
(genesis + hovered cell). -/
theorem c9_genesis_noninterference (dist : RGB → Nat → Rat) (s : AppState)
    (gx gy : Int) (e : MouseEvt) :
    appProcess dist { s with genesisX := gx, genesisY := gy } = appProcess dist s ∧
    (onMouseMove { s with genesisX := gx, genesisY := gy } e).hover =
      (onMouseMove s e).hover ∧
    tooltipWorld { s with genesisX := gx, genesisY := gy } =
      (gx + s.hover.1, gy + s.hover.2) := by
  refine ⟨rfl, ?_, rfl⟩
  rw [onMouseMove_hover, onMouseMove_hover]

/-- C10: applying an empty or whitespace-only share code is a total no-op:
`applySettings` returns before the `try` block, raising no error and changing
none of the four settings. -/
theorem c10_blank_code_noop (code : List Char) (s : Settings)
    (h : ∀ c ∈ code, jsWs c = true) :
    applySettings code s = (s, false) := by
  simp only [applySettings, jsTrim_eq_nil code h]
  simp

/-- C10 witness: a three-character whitespace code leaves the settings
`⟨1, 2, 3, 4⟩` unchanged with no error. -/
theorem c10_witness :
    (∀ c ∈ (' ' :: '\t' :: [' ']), jsWs c = true) ∧
    applySettings (' ' :: '\t' :: [' ']) ⟨1, 2, 3, 4⟩ = (⟨1, 2, 3, 4⟩, false) :=
  ⟨by decide, c10_blank_code_noop _ _ (by decide)⟩

theorem jsRound_intCast (n : Int) : jsRound ((n : Rat)) = n := by
  unfold jsRound
  rw [Int.floor_int_add]
  norm_num [Int.floor_eq_zero_iff]

theorem scan_spec (dist : Nat → Rat) :
    ∀ (pool : List Nat) (b : Rat) (j : Nat),
      (pool.foldl (scanStep dist) (some b, j) = (some b, j) ∧ ∀ i ∈ pool, b ≤ dist i) ∨
      (∃ k l₁ l₂, pool = l₁ ++ k :: l₂ ∧
        pool.foldl (scanStep dist) (some b, j) = (some (dist k), k) ∧
        dist k < b ∧ (∀ i ∈ l₁, dist k < dist i) ∧ (∀ i ∈ l₂, dist k ≤ dist i)) := by
  intro pool
  induction pool with
  | nil => intro b j; exact Or.inl ⟨rfl, by simp⟩
  | cons p rest ih =>
      intro b j
      by_cases hp : dist p < b
      · have hstep : scanStep dist (some b, j) p = (some (dist p), p) := by
          simp [scanStep, hp]
        rcases ih (dist p) p with ⟨heq, hall⟩ | ⟨k, l₁, l₂, hsplit, heq, hlt, h1, h2⟩
        · refine Or.inr ⟨p, [], rest, by simp, ?_, hp, by simp, fun i hi => hall i hi⟩
          rw [List.foldl_cons, hstep]; exact heq
        · refine Or.inr ⟨k, p :: l₁, l₂, by simp [hsplit], ?_, lt_trans hlt hp, ?_, h2⟩
          · rw [List.foldl_cons, hstep]; exact heq
          · intro i hi
            rcases List.mem_cons.mp hi with rfl | hi
            · exact hlt
            · exact h1 i hi
      · have hbp : b ≤ dist p := not_lt.mp hp
        have hstep : scanStep dist (some b, j) p = (some b, j) := by
          simp [scanStep, hp]
        rcases ih b j with ⟨heq, hall⟩ | ⟨k, l₁, l₂, hsplit, heq, hlt, h1, h2⟩
        · refine Or.inl ⟨?_, ?_⟩
          · rw [List.foldl_cons, hstep]; exact heq
          · intro i hi
            rcases List.mem_cons.mp hi with rfl | hi
            · exact hbp
            · exact hall i hi
        · refine Or.inr ⟨k, p :: l₁, l₂, by simp [hsplit], ?_, hlt, ?_, h2⟩
          · rw [List.foldl_cons, hstep]; exact heq
          · intro i hi
            rcases List.mem_cons.mp hi with rfl | hi
            · exact lt_of_lt_of_le hlt hbp
            · exact h1 i hi

theorem pickIdx_spec (dist : Nat → Rat) (pool : List Nat) (hne : pool ≠ []) :
    ∃ k l₁ l₂, pool = l₁ ++ k :: l₂ ∧ pickIdx dist pool = k ∧
      (∀ i ∈ l₁, dist k < dist i) ∧ (∀ i ∈ l₂, dist k ≤ dist i) := by
  obtain ⟨p, rest, rfl⟩ := List.exists_cons_of_ne_nil hne
  have h0 : scanStep dist (none, 0) p = (some (dist p), p) := rfl
  rcases scan_spec dist rest (dist p) p with ⟨heq, hall⟩ | ⟨k, l₁, l₂, hsplit, heq, hlt, h1, h2⟩
  · exact ⟨p, [], rest, rfl, by simp [pickIdx, List.foldl_cons, h0, heq], by simp, hall⟩
  · refine ⟨k, p :: l₁, l₂, by simp [hsplit], by simp [pickIdx, List.foldl_cons, h0, heq], ?_, h2⟩
    intro i hi
    rcases List.mem_cons.mp hi with rfl | hi
    · exact hlt
    · exact h1 i hi

theorem enabledIndices_sorted (flags : List Bool) :
    (enabledIndices flags).Pairwise (· < ·) :=
  List.Pairwise.sublist (List.filter_sublist _) (List.pairwise_lt_range flags.length)

theorem mem_enabledIndices_lt (flags : List Bool) (k : Nat)
    (h : k ∈ enabledIndices flags) : k < flags.length :=
  List.mem_range.mp (List.mem_of_mem_filter h)

/-- C1: for every input colour (any distance oracle it induces) and every
palette configuration with a non-empty enabled set, `pickNearest` returns the
palette entry at an enabled index whose distance is less than or equal to the
distance of every enabled entry, and among the enabled indices attaining that
minimum the returned one is the lowest (the strict `<` comparison makes the
first pool entry win ties, and the pool is in increasing index order). -/
theorem c1_pickNearest_nearest_lowest (dist : Nat → Rat) (flags : List Bool)
    (hlen : flags.length = PALETTE.length) (hne : enabledIndices flags ≠ []) :
    ∃ k, k ∈ enabledIndices flags ∧ k < PALETTE.length ∧
      pickNearest dist flags = paletteAt k ∧
      (∀ j ∈ enabledIndices flags, dist k ≤ dist j) ∧
      (∀ j ∈ enabledIndices flags, dist j = dist k → k ≤ j) := by
  have hpool : activePool flags = enabledIndices flags := if_neg hne
  obtain ⟨k, l₁, l₂, hsplit, hidx, h1, h2⟩ := pickIdx_spec dist (enabledIndices flags) hne
  have hkmem : k ∈ enabledIndices flags := by rw [hsplit]; simp
  refine ⟨k, hkmem, ?_, ?_, ?_, ?_⟩
  · have := mem_enabledIndices_lt flags k hkmem
    omega
  · unfold pickNearest
    rw [hpool, hidx]
  · intro j hj
    rw [hsplit] at hj
    rcases List.mem_append.mp hj with hj | hj
    · exact le_of_lt (h1 j hj)
    · rcases List.mem_cons.mp hj with rfl | hj
      · exact le_refl _
      · exact h2 j hj
  · intro j hj hje
    rw [hsplit] at hj
    rcases List.mem_append.mp hj with hj | hj
    · exact absurd hje (ne_of_gt (h1 j hj))
    · rcases List.mem_cons.mp hj with rfl | hj
      · exact le_refl _
      · have hsorted := enabledIndices_sorted flags
        rw [hsplit] at hsorted
        have hk2 := (List.pairwise_append.mp hsorted).2.1
        exact le_of_lt ((List.pairwise_cons.mp hk2).1 j hj)

/-- C1 witness: with the full 33-flag vector enabled and the oracle
`|i - 2|`, the scan returns an enabled minimizing index. -/
theorem c1_witness :
    (List.replicate 33 true).length = PALETTE.length ∧
    enabledIndices (List.replicate 33 true) ≠ [] ∧
    ∃ k, k ∈ enabledIndices (List.replicate 33 true) ∧ k < PALETTE.length ∧
      pickNearest (fun i => |(i : Rat) - 2|) (List.replicate 33 true) = paletteAt k ∧
      (∀ j ∈ enabledIndices (List.replicate 33 true),
        |(k : Rat) - 2| ≤ |(j : Rat) - 2|) ∧
      (∀ j ∈ enabledIndices (List.replicate 33 true),
        |(j : Rat) - 2| = |(k : Rat) - 2| → k ≤ j) :=
  ⟨by decide, by decide,
    c1_pickNearest_nearest_lowest (fun i => |(i : Rat) - 2|)
      (List.replicate 33 true) (by decide) (by decide)⟩

/-- C8: while not dragging, the hovered cell is the floor division of the
stage-relative pointer position by the zoom whenever the point lies in
`[0, gridW·zoom) × [0, gridH·zoom)`, and the sentinel `(-1, -1)` otherwise;
the computation is independent of the pan translation `dragOffset`. -/
theorem c8_hover_cell (s : AppState) (e : MouseEvt)
    (hd : s.isDragging = false) (hz : 1 ≤ s.zoom) :
    ((onMouseMove s e).hover =
      if 0 ≤ e.clientX - e.rectLeft ∧
          e.clientX - e.rectLeft < ((s.gridW * s.zoom : Int) : Rat) ∧
          0 ≤ e.clientY - e.rectTop ∧
          e.clientY - e.rectTop < ((s.gridH * s.zoom : Int) : Rat) then
        (⌊(e.clientX - e.rectLeft) / (s.zoom : Rat)⌋,
         ⌊(e.clientY - e.rectTop) / (s.zoom : Rat)⌋)
      else (-1, -1)) ∧
    ∀ d : Rat × Rat,
      (onMouseMove { s with dragOffset := d } e).hover = (onMouseMove s e).hover := by
  have hz0 : (0 : Rat) < (s.zoom : Rat) := by exact_mod_cast lt_of_lt_of_le one_pos hz
  constructor
  · rw [onMouseMove_hover, hd]
    simp only [Bool.false_eq_true, if_false]
    have hx0 : 0 ≤ ⌊(e.clientX - e.rectLeft) / (s.zoom : Rat)⌋ ↔
        0 ≤ e.clientX - e.rectLeft := by
      rw [Int.le_floor]
      push_cast
      rw [le_div_iff₀ hz0, zero_mul]
    have hy0 : 0 ≤ ⌊(e.clientY - e.rectTop) / (s.zoom : Rat)⌋ ↔
        0 ≤ e.clientY - e.rectTop := by
      rw [Int.le_floor]
      push_cast
      rw [le_div_iff₀ hz0, zero_mul]
    have hxW : ⌊(e.clientX - e.rectLeft) / (s.zoom : Rat)⌋ < s.gridW ↔
        e.clientX - e.rectLeft < ((s.gridW * s.zoom : Int) : Rat) := by
      rw [Int.floor_lt, div_lt_iff₀ hz0]
      push_cast
      rfl
    have hyH : ⌊(e.clientY - e.rectTop) / (s.zoom : Rat)⌋ < s.gridH ↔
        e.clientY - e.rectTop < ((s.gridH * s.zoom : Int) : Rat) := by
      rw [Int.floor_lt, div_lt_iff₀ hz0]
      push_cast
      rfl
    refine if_congr ?_ rfl rfl
    rw [hx0, hy0, hxW, hyH]
    tauto
  · intro d
    rw [onMouseMove_hover, onMouseMove_hover]

/-- C8 witness: a concrete non-dragging state (zoom 4, 10×5 grid) and a
pointer at stage-relative position (9, 9). -/
theorem c8_witness :
    (({ img := none, pixelsAcross := 100, zoom := 4, genesisX := 0, genesisY := 0,
        gridW := 10, gridH := 5, gridColors := [], hover := (-1, -1),
        mousePx := (0, 0), dragOffset := (0, 0), dragStart := (0, 0),
        isDragging := false, paletteEnabled := [] } : AppState).isDragging = false) ∧
    (1 : Int) ≤ 4 ∧
    ((onMouseMove
        { img := none, pixelsAcross := 100, zoom := 4, genesisX := 0, genesisY := 0,
          gridW := 10, gridH := 5, gridColors := [], hover := (-1, -1),
          mousePx := (0, 0), dragOffset := (0, 0), dragStart := (0, 0),
          isDragging := false, paletteEnabled := [] }
        ⟨9, 9, 0, 0⟩).hover =
      if 0 ≤ (9 : Rat) - 0 ∧ (9 : Rat) - 0 < (((10 * 4 : Int)) : Rat) ∧
          0 ≤ (9 : Rat) - 0 ∧ (9 : Rat) - 0 < (((5 * 4 : Int)) : Rat) then
        (⌊((9 : Rat) - 0) / ((4 : Int) : Rat)⌋, ⌊((9 : Rat) - 0) / ((4 : Int) : Rat)⌋)
      else (-1, -1)) := by
  refine ⟨rfl, by norm_num, ?_⟩
  exact (c8_hover_cell _ ⟨9, 9, 0, 0⟩ rfl (by norm_num)).1

/-- C5 counterexample: a 1×2 source processed with `pixelsAcross = 21/2`
produces an 11×22 grid, while the claimed row formula
`max(1, round(targetColumns / (w/h)))` gives 21 — the code rounds
`targetColumns` to `W = 11` before dividing by the aspect ratio. -/
theorem c5_counterexample :
    procDims (processImage (fun _ _ => 0) (List.replicate 33 true)
        (some ⟨1, 2, fun _ _ => ⟨0, 0, 0⟩⟩) (21 / 2) ⟨0, 0, []⟩) = some (11, 22) ∧
    max 1 (jsRound ((21 / 2 : Rat) / ((1 : Rat) / (2 : Rat)))) = 21 := by
  constructor
  · have h1 : jsRound (21 / 2 : Rat) = 11 := by
      unfold jsRound
      rw [show (21 / 2 : Rat) + 1 / 2 = ((11 : Int) : Rat) by norm_num,
        Int.floor_intCast]
    have e1 : jsDiv (.fin ((1 : Nat) : Rat)) (.fin ((2 : Nat) : Rat)) =
        .fin (1 / 2) := by
      norm_num [jsDiv]
    have e2 : jsMaxN (.fin 1) (jsRoundN (.fin (21 / 2 : Rat))) = .fin 11 := by
      simp only [jsRoundN, jsMaxN, h1]
      norm_num
    have h2 : jsRound ((11 : Rat) / (1 / 2 : Rat)) = 22 := by
      rw [show (11 : Rat) / (1 / 2 : Rat) = ((22 : Int) : Rat) by norm_num,
        jsRound_intCast]
    have e3 : jsDiv (.fin (11 : Rat)) (.fin (1 / 2 : Rat)) = .fin (11 / (1 / 2)) := by
      norm_num [jsDiv]
    have e4 : jsMaxN (.fin 1) (jsRoundN (.fin ((11 : Rat) / (1 / 2 : Rat)))) =
        .fin 22 := by
      simp only [jsRoundN, jsMaxN, h2]
      norm_num
    simp only [processImage, e1, e2, e3, e4, procWithDims, procDims]
    rw [show ((11 : Rat)) = ((11 : Int) : Rat) by norm_num,
      show ((22 : Rat)) = ((22 : Int) : Rat) by norm_num,
      Int.floor_intCast, Int.floor_intCast]
  · rw [show (21 / 2 : Rat) / ((1 : Rat) / (2 : Rat)) = ((21 : Int) : Rat) by norm_num,
      jsRound_intCast]
    norm_num

/-- C5 (amended): for a source of width `w ≥ 1` and height `h ≥ 1` and every
integer `targetColumns ≥ 1` (the program only ever supplies integers in
`[5, 400]`), the produced grid has `max(1, round(targetColumns))` columns and
`max(1, round(targetColumns / (w/h)))` rows; for fractional `targetColumns`
the code instead divides the already-rounded column count by the aspect
ratio (see the counterexample). -/
theorem c5_amended_grid_dims (dist : RGB → Nat → Rat) (flags : List Bool)
    (im : SrcImage) (tc : Int) (prev : Grid)
    (hw : 1 ≤ im.w) (hh : 1 ≤ im.h) (htc : 1 ≤ tc) :
    procDims (processImage dist flags (some im) ((tc : Int) : Rat) prev) =
      some (max 1 (jsRound ((tc : Int) : Rat)),
            max 1 (jsRound (((tc : Int) : Rat) / ((im.w : Rat) / (im.h : Rat))))) := by
  have hhQ : ((im.h : Rat)) ≠ 0 := Nat.cast_ne_zero.mpr (by omega)
  have haQ : ((im.w : Rat) / (im.h : Rat)) ≠ 0 :=
    div_ne_zero (Nat.cast_ne_zero.mpr (by omega)) hhQ
  have hr : jsRound (((tc : Int) : Rat)) = tc := jsRound_intCast tc
  have hmax : max (1 : Rat) ((tc : Int) : Rat) = ((tc : Int) : Rat) :=
    max_eq_right (by exact_mod_cast htc)
  have e1 : jsDiv (.fin (im.w : Rat)) (.fin (im.h : Rat)) =
      .fin ((im.w : Rat) / (im.h : Rat)) := by
    simp [jsDiv, hhQ]
  have e2 : jsMaxN (.fin 1) (jsRoundN (.fin ((tc : Int) : Rat))) =
      .fin ((tc : Int) : Rat) := by
    simp only [jsRoundN, jsMaxN, hr, hmax]
  have e3 : jsDiv (.fin ((tc : Int) : Rat)) (.fin ((im.w : Rat) / (im.h : Rat))) =
      .fin (((tc : Int) : Rat) / ((im.w : Rat) / (im.h : Rat))) := by
    simp [jsDiv, haQ]
  have e4 : jsMaxN (.fin 1)
      (jsRoundN (.fin (((tc : Int) : Rat) / ((im.w : Rat) / (im.h : Rat))))) =
      .fin (max 1 ((jsRound (((tc : Int) : Rat) / ((im.w : Rat) / (im.h : Rat))) :
        Int) : Rat)) := by
    simp only [jsRoundN, jsMaxN]
  simp only [processImage, e1, e2, e3, e4, procWithDims, procDims]
  rw [Int.floor_intCast]
  rw [show (1 : Rat) = ((1 : Int) : Rat) by norm_num, ← Int.cast_max, Int.floor_intCast]
  rw [hr, max_eq_right htc]

/-- C5 witness: a 200×100 source with `pixelsAcross = 50` yields a grid of
exactly 50 columns by 25 rows. -/
theorem c5_witness :
    procDims (processImage (fun _ _ => 0) (List.replicate 33 true)
        (some ⟨200, 100, fun _ _ => ⟨0, 0, 0⟩⟩) (((50 : Int)) : Rat) ⟨0, 0, []⟩) =
      some (50, 25) := by
  have h := c5_amended_grid_dims (fun _ _ => 0) (List.replicate 33 true)
    ⟨200, 100, fun _ _ => ⟨0, 0, 0⟩⟩ 50 ⟨0, 0, []⟩ (by norm_num) (by norm_num)
    (by norm_num)
  rw [h, jsRound_intCast]
  rw [show (((50 : Int)) : Rat) / (((200 : Nat) : Rat) / ((100 : Nat) : Rat)) =
    ((25 : Int) : Rat) by norm_num, jsRound_intCast]
  norm_num

/-! Base64 lemmas. -/

theorem b64inv_b64c : ∀ n < 64, b64inv (b64c n) = some n := by decide

theorem b64Alphabet_length : b64Alphabet.length = 64 := by decide

theorem b64c_ne_eqCh (n : Nat) : b64c n ≠ eqCh := by
  by_cases h : n < 64
  · exact (by decide : ∀ m < 64, b64c m ≠ eqCh) n h
  · unfold b64c
    rw [List.getD_eq_default _ _ (by rw [b64Alphabet_length]; omega)]
    decide

theorem b64c_not_ws (n : Nat) : jsWs (b64c n) = false := by
  by_cases h : n < 64
  · exact (by decide : ∀ m < 64, jsWs (b64c m) = false) n h
  · unfold b64c
    rw [List.getD_eq_default _ _ (by rw [b64Alphabet_length]; omega)]
    decide

theorem atob_btoa : ∀ l : List Nat, (∀ b ∈ l, b < 256) →
    atobBytes (btoaBytes l) = some l := by
  intro l
  induction l using btoaBytes.induct with
  | case1 => intro _; rfl
  | case2 a =>
      intro h
      have ha := h a (by simp)
      simp [btoaBytes, atobBytes, b64inv_b64c _ (show a / 4 < 64 by omega),
        b64inv_b64c _ (show a % 4 * 16 < 64 by omega)]
      omega
  | case3 a b =>
      intro h
      have ha := h a (by simp)
      have hb := h b (by simp)
      simp [btoaBytes, atobBytes, b64inv_b64c _ (show a / 4 < 64 by omega),
        b64inv_b64c _ (show a % 4 * 16 + b / 16 < 64 by omega),
        b64inv_b64c _ (show b % 16 * 4 < 64 by omega), b64c_ne_eqCh]
      omega
  | case4 a b d rest ih =>
      intro h
      have ha := h a (by simp)
      have hb := h b (by simp)
      have hd := h d (by simp)
      have hrest : ∀ x ∈ rest, x < 256 := fun x hx => h x (by simp [hx])
      simp [btoaBytes, atobBytes, b64inv_b64c _ (show a / 4 < 64 by omega),
        b64inv_b64c _ (show a % 4 * 16 + b / 16 < 64 by omega),
        b64inv_b64c _ (show b % 16 * 4 + d / 64 < 64 by omega),
        b64inv_b64c _ (show d % 64 < 64 by omega), b64c_ne_eqCh, ih hrest]
      omega

theorem btoaBytes_ne_nil : ∀ l : List Nat, l ≠ [] → btoaBytes l ≠ [] := by
  intro l h
  match l with
  | [] => exact absurd rfl h
  | [a] => simp [btoaBytes]
  | [a, b] => simp [btoaBytes]
  | a :: b :: d :: rest => simp [btoaBytes]

theorem mem_btoaBytes_not_ws : ∀ (l : List Nat) (c : Char), c ∈ btoaBytes l →
    jsWs c = false := by
  intro l
  induction l using btoaBytes.induct with
  | case1 => simp [btoaBytes]
  | case2 a =>
      intro c hc
      simp only [btoaBytes, List.mem_cons, List.not_mem_nil, or_false] at hc
      rcases hc with rfl | rfl | rfl | rfl
      · exact b64c_not_ws _
      · exact b64c_not_ws _
      · decide
      · decide
  | case3 a b =>
      intro c hc
      simp only [btoaBytes, List.mem_cons, List.not_mem_nil, or_false] at hc
      rcases hc with rfl | rfl | rfl | rfl
      · exact b64c_not_ws _
      · exact b64c_not_ws _
      · exact b64c_not_ws _
      · decide
  | case4 a b d rest ih =>
      intro c hc
      simp only [btoaBytes, List.mem_cons] at hc
      rcases hc with rfl | rfl | rfl | rfl | h
      · exact b64c_not_ws _
      · exact b64c_not_ws _
      · exact b64c_not_ws _
      · exact b64c_not_ws _
      · exact ih c h

/-! Decimal-numeral lemmas. -/

theorem digit_facts : ∀ d, d < 10 →
    (Char.ofNat (48 + d)).isDigit = true ∧ jsonWs (Char.ofNat (48 + d)) = false ∧
    jsWs (Char.ofNat (48 + d)) = false ∧ Char.ofNat (48 + d) ≠ qCh ∧
    Char.ofNat (48 + d) ≠ '-' ∧ (Char.ofNat (48 + d)).toNat = 48 + d := by decide

theorem natToChars_shape (n : Nat) :
    ∀ c ∈ natToChars n, ∃ d, d < 10 ∧ c = Char.ofNat (48 + d) := by
  induction n using natToChars.induct with
  | case1 n h =>
      intro c hc
      rw [natToChars, dif_pos h] at hc
      simp at hc
      exact ⟨n, h, hc⟩
  | case2 n h ih =>
      intro c hc
      rw [natToChars, dif_neg h] at hc
      rcases List.mem_append.mp hc with hc | hc
      · exact ih c hc
      · simp at hc
        exact ⟨n % 10, by omega, hc⟩

theorem natToChars_ne_nil (n : Nat) : natToChars n ≠ [] := by
  induction n using natToChars.induct with
  | case1 n h => rw [natToChars, dif_pos h]; simp
  | case2 n h ih => rw [natToChars, dif_neg h]; simp

theorem digitsVal_aux (n : Nat) :
    ∀ a : Nat, (natToChars n).foldl (fun a c => 10 * a + (c.toNat - 48)) a =
      a * 10 ^ (natToChars n).length + n := by
  induction n using natToChars.induct with
  | case1 n h =>
      intro a
      rw [natToChars, dif_pos h]
      simp only [List.foldl_cons, List.foldl_nil, List.length_cons, List.length_nil]
      rw [(digit_facts n h).2.2.2.2.2]
      simp
      omega
  | case2 n h ih =>
      intro a
      rw [natToChars, dif_neg h]
      rw [List.foldl_append, ih a]
      simp only [List.foldl_cons, List.foldl_nil, List.length_append,
        List.length_cons, List.length_nil]
      rw [(digit_facts (n % 10) (by omega)).2.2.2.2.2]
      rw [pow_succ, ← mul_assoc]
      have hd := Nat.div_add_mod n 10
      generalize a * 10 ^ (natToChars (n / 10)).length = M
      omega

theorem digitsVal_natToChars (n : Nat) : digitsVal (natToChars n) = n := by
  have := digitsVal_aux n 0
  simpa [digitsVal] using this

theorem takeWhile_append_of_all {p : Char → Bool} :
    ∀ l₁ l₂ : List Char, (∀ c ∈ l₁, p c = true) →
      (l₁ ++ l₂).takeWhile p = l₁ ++ l₂.takeWhile p := by
  intro l₁
  induction l₁ with
  | nil => simp
  | cons c t ih =>
      intro l₂ h
      simp [List.takeWhile_cons, h c (by simp), ih l₂ (fun d hd => h d (by simp [hd]))]

theorem parseNat_natToChars (n : Nat) (r : List Char)
    (hr : r.takeWhile Char.isDigit = []) :
    parseNat (natToChars n ++ r) = some (n, r) := by
  have hall : ∀ c ∈ natToChars n, Char.isDigit c = true := by
    intro c hc
    obtain ⟨d, hd, rfl⟩ := natToChars_shape n c hc
    exact (digit_facts d hd).1
  unfold parseNat
  rw [takeWhile_append_of_all _ _ hall, hr, List.append_nil]
  rw [if_neg (natToChars_ne_nil n)]
  rw [digitsVal_natToChars, List.drop_left]

theorem parseIntLit_intToChars (m : Int) (r : List Char)
    (hr : r.takeWhile Char.isDigit = []) :
    parseIntLit (intToChars m ++ r) = some (m, r) := by
  by_cases hm : m < 0
  · rw [show intToChars m ++ r = '-' :: (natToChars m.natAbs ++ r) by
      simp [intToChars, hm]]
    show (if ('-' : Char) = '-' then
        (parseNat (natToChars m.natAbs ++ r)).map (fun p => (-(p.1 : Int), p.2))
      else (parseNat ('-' :: (natToChars m.natAbs ++ r))).map
        (fun p => ((p.1 : Int), p.2))) = some (m, r)
    rw [if_pos rfl, parseNat_natToChars _ _ hr]
    simp only [Option.map_some']
    rw [show (-((m.natAbs : Nat) : Int)) = m by omega]
  · have hne := natToChars_ne_nil m.toNat
    obtain ⟨c, t, hct⟩ := List.exists_cons_of_ne_nil hne
    obtain ⟨d, hd, hcd⟩ := natToChars_shape m.toNat c (by rw [hct]; simp)
    rw [show intToChars m ++ r = c :: (t ++ r) by simp [intToChars, hm, hct]]
    show (if c = '-' then
        (parseNat (t ++ r)).map (fun p => (-(p.1 : Int), p.2))
      else (parseNat (c :: (t ++ r))).map (fun p => ((p.1 : Int), p.2))) = some (m, r)
    rw [if_neg (by rw [hcd]; exact (digit_facts d hd).2.2.2.2.1)]
    rw [show c :: (t ++ r) = natToChars m.toNat ++ r by rw [hct]; simp]
    rw [parseNat_natToChars _ _ hr]
    simp only [Option.map_some']
    rw [show (((m.toNat : Nat) : Int)) = m by omega]

theorem skipWs_cons (c : Char) (l : List Char) (h : jsonWs c = false) :
    skipWs (c :: l) = c :: l := by
  simp [skipWs, List.dropWhile_cons, h]

theorem skipWs_qCh (l : List Char) : skipWs (qCh :: l) = qCh :: l :=
  skipWs_cons _ _ (by decide)

theorem skipWs_colonCh (l : List Char) : skipWs (':' :: l) = ':' :: l :=
  skipWs_cons _ _ (by decide)

theorem skipWs_commaCh (l : List Char) : skipWs (',' :: l) = ',' :: l :=
  skipWs_cons _ _ (by decide)

theorem skipWs_rbCh (l : List Char) : skipWs (rbCh :: l) = rbCh :: l :=
  skipWs_cons _ _ (by decide)

theorem takeWhile_digit_comma (rest : List Char) :
    (',' :: rest).takeWhile Char.isDigit = [] := by
  rw [List.takeWhile_cons, show Char.isDigit ',' = false from by decide]
  simp

theorem takeWhile_digit_rb (rest : List Char) :
    (rbCh :: rest).takeWhile Char.isDigit = [] := by
  rw [List.takeWhile_cons, show Char.isDigit rbCh = false from by decide]
  simp

theorem parseStringLit_exact (k r : List Char) (hk : ∀ c ∈ k, c ≠ qCh) :
    parseStringLit (qCh :: (k ++ qCh :: r)) = some (k, r) := by
  have hall : ∀ c ∈ k, (fun d => decide (d ≠ qCh)) c = true := by
    intro c hc
    simp [hk c hc]
  have hs : (k ++ qCh :: r).takeWhile (fun d => decide (d ≠ qCh)) = k := by
    rw [takeWhile_append_of_all _ _ hall, List.takeWhile_cons]
    simp
  show (if qCh = qCh then
      match (k ++ qCh :: r).drop
          ((k ++ qCh :: r).takeWhile (fun d => decide (d ≠ qCh))).length with
      | d :: r' =>
          if d = qCh then
            some ((k ++ qCh :: r).takeWhile (fun d => decide (d ≠ qCh)), r')
          else none
      | [] => none
    else none) = some (k, r)
  rw [if_pos rfl, hs, List.drop_left]
  simp

theorem parseScalar_cons_eq (c : Char) (rest : List Char) (hws : jsonWs c = false) :
    parseScalar (c :: rest) =
      (if c = qCh then
        (parseStringLit (c :: rest)).map (fun p => (JVal.str p.1, p.2))
      else if c = '-' ∨ c.isDigit then
        (parseIntLit (c :: rest)).map (fun p => (JVal.num p.1, p.2))
      else if c = 't' then
        (if rest.take 3 = ['r', 'u', 'e'] then some (JVal.jbool true, rest.drop 3) else none)
      else if c = 'f' then
        (if rest.take 4 = ['a', 'l', 's', 'e'] then some (JVal.jbool false, rest.drop 4) else none)
      else if c = 'n' then
        (if rest.take 3 = ['u', 'l', 'l'] then some (JVal.jnull, rest.drop 3) else none)
      else none) := by
  unfold parseScalar
  rw [skipWs_cons c rest hws]

theorem parseScalar_int (m : Int) (r : List Char)
    (hr : r.takeWhile Char.isDigit = []) :
    parseScalar (intToChars m ++ r) = some (JVal.num m, r) := by
  by_cases hm : m < 0
  · have he : intToChars m ++ r = '-' :: (natToChars m.natAbs ++ r) := by
      simp [intToChars, hm]
    rw [he, parseScalar_cons_eq '-' _ (by decide)]
    rw [if_neg (by decide : ('-' : Char) ≠ qCh), if_pos (Or.inl rfl)]
    rw [← he, parseIntLit_intToChars m r hr]
    rfl
  · have hne := natToChars_ne_nil m.toNat
    obtain ⟨c, t, hct⟩ := List.exists_cons_of_ne_nil hne
    obtain ⟨d, hd, hcd⟩ := natToChars_shape m.toNat c (by rw [hct]; simp)
    have he : intToChars m ++ r = c :: (t ++ r) := by simp [intToChars, hm, hct]
    rw [he, parseScalar_cons_eq c _ (by rw [hcd]; exact (digit_facts d hd).2.1)]
    rw [if_neg (by rw [hcd]; exact (digit_facts d hd).2.2.2.1)]
    rw [if_pos (Or.inr (by rw [hcd]; exact (digit_facts d hd).1))]
    rw [← he, parseIntLit_intToChars m r hr]
    rfl

theorem parseMembers_member_comma (f : Nat) (k : String) (m : Int) (rest : List Char)
    (hk : ∀ c ∈ k.data, c ≠ qCh) :
    parseMembers (f + 1) (memberInt k m (',' :: rest)) =
      (parseMembers f rest).map (fun p => ((k.data, JVal.num m) :: p.1, p.2)) := by
  have h1 := parseStringLit_exact k.data (':' :: (intToChars m ++ ',' :: rest)) hk
  have h2 := parseScalar_int m (',' :: rest) (takeWhile_digit_comma rest)
  cases hP : parseMembers f rest with
  | none =>
      simp [memberInt, parseMembers, skipWs_qCh, skipWs_colonCh, skipWs_commaCh,
        h1, h2, hP]
  | some p =>
      simp [memberInt, parseMembers, skipWs_qCh, skipWs_colonCh, skipWs_commaCh,
        h1, h2, hP]

theorem parseMembers_member_rb (f : Nat) (k : String) (m : Int) (rest : List Char)
    (hk : ∀ c ∈ k.data, c ≠ qCh) :
    parseMembers (f + 1) (memberInt k m (rbCh :: rest)) =
      some ([(k.data, JVal.num m)], rest) := by
  have h1 := parseStringLit_exact k.data (':' :: (intToChars m ++ rbCh :: rest)) hk
  have h2 := parseScalar_int m (rbCh :: rest) (takeWhile_digit_rb rest)
  simp [memberInt, parseMembers, skipWs_qCh, skipWs_colonCh, skipWs_rbCh, h1, h2,
    (by decide : rbCh ≠ ','), (by decide : ¬ rbCh = ',')]

theorem jsonParse_cons_eq (c : Char) (rest : List Char) (h : jsonWs c = false) :
    jsonParse (c :: rest) =
      (if c = lbCh then
        match skipWs rest with
        | [] => none
        | d :: r2 =>
            if d = rbCh then (if skipWs r2 = [] then some (JVal.obj []) else none)
            else
              match parseMembers (rest.length + 1) rest with
              | some (fs, r) => if skipWs r = [] then some (JVal.obj fs) else none
              | none => none
      else
        match parseScalar (c :: rest) with
        | some (v, r) => if skipWs r = [] then some v else none
        | none => none) := by
  unfold jsonParse
  rw [skipWs_cons c rest h]

theorem jsonParse_stringify (r : Settings) :
    jsonParse (stringifyPayload r) = some (JVal.obj
      [("v".data, JVal.num 1), ("pixelsAcross".data, JVal.num r.pixelsAcross),
       ("genesisX".data, JVal.num r.genesisX), ("genesisY".data, JVal.num r.genesisY),
       ("zoom".data, JVal.num r.zoom)]) := by
  have hstep5 : ∀ f : Nat,
      parseMembers (f + 5)
        (memberInt "v" 1 (',' :: memberInt "pixelsAcross" r.pixelsAcross (',' ::
          memberInt "genesisX" r.genesisX (',' :: memberInt "genesisY" r.genesisY (',' ::
            memberInt "zoom" r.zoom [rbCh]))))) =
        some ([("v".data, JVal.num 1), ("pixelsAcross".data, JVal.num r.pixelsAcross),
          ("genesisX".data, JVal.num r.genesisX),
          ("genesisY".data, JVal.num r.genesisY),
          ("zoom".data, JVal.num r.zoom)], []) := by
    intro f
    rw [show f + 5 = (f + 4) + 1 from rfl,
      parseMembers_member_comma (f + 4) "v" 1 _ (by decide)]
    rw [show f + 4 = (f + 3) + 1 from rfl,
      parseMembers_member_comma (f + 3) "pixelsAcross" r.pixelsAcross _ (by decide)]
    rw [show f + 3 = (f + 2) + 1 from rfl,
      parseMembers_member_comma (f + 2) "genesisX" r.genesisX _ (by decide)]
    rw [show f + 2 = (f + 1) + 1 from rfl,
      parseMembers_member_comma (f + 1) "genesisY" r.genesisY _ (by decide)]
    rw [parseMembers_member_rb f "zoom" r.zoom [] (by decide)]
    rfl
  have hM : stringifyPayload r =
      lbCh :: memberInt "v" 1 (',' :: memberInt "pixelsAcross" r.pixelsAcross (',' ::
        memberInt "genesisX" r.genesisX (',' :: memberInt "genesisY" r.genesisY (',' ::
          memberInt "zoom" r.zoom [rbCh])))) := rfl
  have hMcons : memberInt "v" 1 (',' :: memberInt "pixelsAcross" r.pixelsAcross (',' ::
      memberInt "genesisX" r.genesisX (',' :: memberInt "genesisY" r.genesisY (',' ::
        memberInt "zoom" r.zoom [rbCh])))) =
      qCh :: ("v".data ++ qCh :: ':' :: (intToChars 1 ++ (',' ::
        memberInt "pixelsAcross" r.pixelsAcross (',' ::
          memberInt "genesisX" r.genesisX (',' :: memberInt "genesisY" r.genesisY (',' ::
            memberInt "zoom" r.zoom [rbCh])))))) := rfl
  rw [hM, jsonParse_cons_eq lbCh _ (by decide), if_pos rfl]
  rw [hMcons, skipWs_qCh]
  dsimp only
  rw [if_neg (by decide : ¬ qCh = rbCh)]
  rw [← hMcons]
  have hlen4 : 4 ≤ (memberInt "v" 1 (',' :: memberInt "pixelsAcross" r.pixelsAcross
      (',' :: memberInt "genesisX" r.genesisX (',' :: memberInt "genesisY" r.genesisY
        (',' :: memberInt "zoom" r.zoom [rbCh]))))).length := by
    rw [hMcons]
    simp only [List.length_cons, List.length_append]
    omega
  have hfuel : (memberInt "v" 1 (',' :: memberInt "pixelsAcross" r.pixelsAcross
      (',' :: memberInt "genesisX" r.genesisX (',' :: memberInt "genesisY" r.genesisY
        (',' :: memberInt "zoom" r.zoom [rbCh]))))).length + 1 =
      ((memberInt "v" 1 (',' :: memberInt "pixelsAcross" r.pixelsAcross
      (',' :: memberInt "genesisX" r.genesisX (',' :: memberInt "genesisY" r.genesisY
        (',' :: memberInt "zoom" r.zoom [rbCh]))))).length - 4) + 5 := by
    omega
  rw [hfuel, hstep5]
  rfl

theorem intToChars_ascii (m : Int) : ∀ c ∈ intToChars m, c.toNat < 128 := by
  intro c hc
  unfold intToChars at hc
  by_cases hm : m < 0
  · rw [if_pos hm] at hc
    rcases List.mem_cons.mp hc with rfl | hc
    · decide
    · obtain ⟨d, hd, rfl⟩ := natToChars_shape _ c hc
      have := (digit_facts d hd).2.2.2.2.2
      omega
  · rw [if_neg hm] at hc
    obtain ⟨d, hd, rfl⟩ := natToChars_shape _ c hc
    have := (digit_facts d hd).2.2.2.2.2
    omega

theorem mem_memberInt (k : String) (m : Int) (rest : List Char) (c : Char)
    (hc : c ∈ memberInt k m rest) :
    c = qCh ∨ c ∈ k.data ∨ c = ':' ∨ c ∈ intToChars m ∨ c ∈ rest := by
  simp only [memberInt, List.mem_cons, List.mem_append] at hc
  tauto

theorem stringify_ascii (r : Settings) : ∀ c ∈ stringifyPayload r, c.toNat < 128 := by
  intro c hc
  unfold stringifyPayload at hc
  rcases List.mem_cons.mp hc with rfl | hc
  · decide
  rcases mem_memberInt _ _ _ _ hc with rfl | h | rfl | h | hc
  · decide
  · exact (by decide : ∀ x ∈ "v".data, x.toNat < 128) c h
  · decide
  · exact intToChars_ascii _ c h
  rcases List.mem_cons.mp hc with rfl | hc
  · decide
  rcases mem_memberInt _ _ _ _ hc with rfl | h | rfl | h | hc
  · decide
  · exact (by decide : ∀ x ∈ "pixelsAcross".data, x.toNat < 128) c h
  · decide
  · exact intToChars_ascii _ c h
  rcases List.mem_cons.mp hc with rfl | hc
  · decide
  rcases mem_memberInt _ _ _ _ hc with rfl | h | rfl | h | hc
  · decide
  · exact (by decide : ∀ x ∈ "genesisX".data, x.toNat < 128) c h
  · decide
  · exact intToChars_ascii _ c h
  rcases List.mem_cons.mp hc with rfl | hc
  · decide
  rcases mem_memberInt _ _ _ _ hc with rfl | h | rfl | h | hc
  · decide
  · exact (by decide : ∀ x ∈ "genesisY".data, x.toNat < 128) c h
  · decide
  · exact intToChars_ascii _ c h
  rcases List.mem_cons.mp hc with rfl | hc
  · decide
  rcases mem_memberInt _ _ _ _ hc with rfl | h | rfl | h | hc
  · decide
  · exact (by decide : ∀ x ∈ "zoom".data, x.toNat < 128) c h
  · decide
  · exact intToChars_ascii _ c h
  rcases List.mem_cons.mp hc with rfl | hc
  · decide
  · simp at hc

theorem asciiChars_charsToBytes (l : List Char) (h : ∀ c ∈ l, c.toNat < 128) :
    asciiChars (charsToBytes l) = some l := by
  unfold asciiChars charsToBytes
  rw [if_pos (by
    simp only [List.all_eq_true, List.mem_map, decide_eq_true_eq]
    rintro b ⟨c, hc, rfl⟩
    exact h c hc)]
  rw [List.map_map,
    show l.map (Char.ofNat ∘ Char.toNat) = l.map id from
      List.map_congr_left (fun c _ => Char.ofNat_toNat c),
    List.map_id]

theorem decodeShare_export (r : Settings) :
    decodeShare (exportSettings r) = some (JVal.obj
      [("v".data, JVal.num 1), ("pixelsAcross".data, JVal.num r.pixelsAcross),
       ("genesisX".data, JVal.num r.genesisX), ("genesisY".data, JVal.num r.genesisY),
       ("zoom".data, JVal.num r.zoom)]) := by
  have hb : ∀ b ∈ charsToBytes (stringifyPayload r), b < 256 := by
    intro b hbm
    obtain ⟨c, hc, rfl⟩ := List.mem_map.mp hbm
    have := stringify_ascii r c hc
    omega
  unfold decodeShare exportSettings
  rw [atob_btoa _ hb]
  dsimp only
  rw [asciiChars_charsToBytes _ (stringify_ascii r)]
  dsimp only
  exact jsonParse_stringify r

/-- C3: exporting any settings record with integer fields, `pixelsAcross` in
`[5, 400]` and `zoom` in `[1, 64]`, and applying the resulting share code
restores exactly the four field values (and raises no error), from any
starting state. -/
theorem c3_export_apply_roundtrip (r s : Settings) (h5 : 5 ≤ r.pixelsAcross)
    (h400 : r.pixelsAcross ≤ 400) (hz1 : 1 ≤ r.zoom) (hz64 : r.zoom ≤ 64) :
    applySettings (exportSettings r) s = (r, false) := by
  have hnws : ∀ c ∈ exportSettings r, jsWs c = false :=
    fun c hc => mem_btoaBytes_not_ws _ c hc
  have htrim : jsTrim (exportSettings r) = exportSettings r := jsTrim_eq_self _ hnws
  have hnnil : exportSettings r ≠ [] := by
    apply btoaBytes_ne_nil
    simp [charsToBytes, stringifyPayload]
  have hp : ∀ s' : Settings,
      applyPix [("v".data, JVal.num 1), ("pixelsAcross".data, JVal.num r.pixelsAcross),
        ("genesisX".data, JVal.num r.genesisX), ("genesisY".data, JVal.num r.genesisY),
        ("zoom".data, JVal.num r.zoom)] s' =
        { s' with pixelsAcross := clamp r.pixelsAcross 5 400 } := by
    intro s'
    unfold applyPix
    rw [show jsField [("v".data, JVal.num 1),
      ("pixelsAcross".data, JVal.num r.pixelsAcross),
      ("genesisX".data, JVal.num r.genesisX), ("genesisY".data, JVal.num r.genesisY),
      ("zoom".data, JVal.num r.zoom)] "pixelsAcross".data =
        some (JVal.num r.pixelsAcross) from rfl]
  have hgx : ∀ s' : Settings,
      applyGx [("v".data, JVal.num 1), ("pixelsAcross".data, JVal.num r.pixelsAcross),
        ("genesisX".data, JVal.num r.genesisX), ("genesisY".data, JVal.num r.genesisY),
        ("zoom".data, JVal.num r.zoom)] s' = { s' with genesisX := r.genesisX } := by
    intro s'
    unfold applyGx
    rw [show jsField [("v".data, JVal.num 1),
      ("pixelsAcross".data, JVal.num r.pixelsAcross),
      ("genesisX".data, JVal.num r.genesisX), ("genesisY".data, JVal.num r.genesisY),
      ("zoom".data, JVal.num r.zoom)] "genesisX".data =
        some (JVal.num r.genesisX) from rfl]
  have hgy : ∀ s' : Settings,
      applyGy [("v".data, JVal.num 1), ("pixelsAcross".data, JVal.num r.pixelsAcross),
        ("genesisX".data, JVal.num r.genesisX), ("genesisY".data, JVal.num r.genesisY),
        ("zoom".data, JVal.num r.zoom)] s' = { s' with genesisY := r.genesisY } := by
    intro s'
    unfold applyGy
    rw [show jsField [("v".data, JVal.num 1),
      ("pixelsAcross".data, JVal.num r.pixelsAcross),
      ("genesisX".data, JVal.num r.genesisX), ("genesisY".data, JVal.num r.genesisY),
      ("zoom".data, JVal.num r.zoom)] "genesisY".data =
        some (JVal.num r.genesisY) from rfl]
  have hz : ∀ s' : Settings,
      applyZoom [("v".data, JVal.num 1), ("pixelsAcross".data, JVal.num r.pixelsAcross),
        ("genesisX".data, JVal.num r.genesisX), ("genesisY".data, JVal.num r.genesisY),
        ("zoom".data, JVal.num r.zoom)] s' =
        { s' with zoom := clamp r.zoom 1 64 } := by
    intro s'
    unfold applyZoom
    rw [show jsField [("v".data, JVal.num 1),
      ("pixelsAcross".data, JVal.num r.pixelsAcross),
      ("genesisX".data, JVal.num r.genesisX), ("genesisY".data, JVal.num r.genesisY),
      ("zoom".data, JVal.num r.zoom)] "zoom".data = some (JVal.num r.zoom) from rfl]
  unfold applySettings
  rw [htrim, if_neg hnnil, decodeShare_export r]
  dsimp only
  rw [show isVersion1 (jsField [("v".data, JVal.num 1),
    ("pixelsAcross".data, JVal.num r.pixelsAcross),
    ("genesisX".data, JVal.num r.genesisX), ("genesisY".data, JVal.num r.genesisY),
    ("zoom".data, JVal.num r.zoom)] "v".data) = true from rfl]
  rw [if_pos rfl]
  rw [hp, hgx, hgy, hz]
  rw [show clamp r.pixelsAcross 5 400 = r.pixelsAcross from by unfold clamp; omega]
  rw [show clamp r.zoom 1 64 = r.zoom from by unfold clamp; omega]

/-- C3 witness: the settings record (100, −3, 7, 8) survives the export /
apply round trip from the unrelated starting state (5, 0, 0, 1). -/
theorem c3_witness :
    (5 : Int) ≤ 100 ∧ (100 : Int) ≤ 400 ∧ (1 : Int) ≤ 8 ∧ (8 : Int) ≤ 64 ∧
    applySettings (exportSettings ⟨100, -3, 7, 8⟩) ⟨5, 0, 0, 1⟩ =
      (⟨100, -3, 7, 8⟩, false) :=
  ⟨by norm_num, by norm_num, by norm_num, by norm_num,
    c3_export_apply_roundtrip ⟨100, -3, 7, 8⟩ ⟨5, 0, 0, 1⟩
      (by norm_num) (by norm_num) (by norm_num) (by norm_num)⟩

/-- C4 counterexample: the share code for `(\x7b"v":1,"genesisX":7\x7d)` — a
payload with `v = 1` but three of the four fields missing — does not produce
the error and does not leave the state unchanged: `genesisX` is applied
(partial application) while the other fields keep their old values. -/
theorem c4_counterexample :
    applySettings ("eyJ2IjoxLCJnZW5lc2lzWCI6N30=".data) ⟨100, 0, 0, 8⟩ =
      (⟨100, 7, 0, 8⟩, false) := by decide

/-- C4 (amended): `applySettings` validates that the payload is valid JSON,
an object, and has `v` equal to `1`; whenever the error branch runs the
state is unchanged.  But with `v = 1` the four fields are validated and
applied individually: each is applied only if present and numeric, and a
missing or non-numeric field is silently skipped while the other numeric
fields are still applied, with no error. -/
theorem c4_amended_validation (code : List Char) (s : Settings) :
    ((applySettings code s).2 = true → (applySettings code s).1 = s) ∧
    (∀ fs, jsTrim code ≠ [] → decodeShare (jsTrim code) = some (JVal.obj fs) →
      isVersion1 (jsField fs "v".data) = true →
      applySettings code s =
        (applyZoom fs (applyGy fs (applyGx fs (applyPix fs s))), false)) ∧
    (∀ fs (s' : Settings), jsField fs "pixelsAcross".data = none →
      applyPix fs s' = s') := by
  refine ⟨?_, ?_, ?_⟩
  · by_cases ht : jsTrim code = []
    · simp [applySettings, ht]
    · simp only [applySettings, if_neg ht]
      rcases hdec : decodeShare (jsTrim code) with _ | v
      · simp
      · cases v with
        | obj fs =>
            by_cases hv : isVersion1 (jsField fs "v".data) = true
            · simp [hv]
            · simp [hv]
        | jnull => simp
        | jbool b => simp
        | num n => simp
        | str t => simp
  · intro fs ht hdec hv
    simp only [applySettings, if_neg ht]
    rw [hdec]
    dsimp only
    rw [hv]
    simp
  · intro fs s' hnone
    unfold applyPix
    rw [hnone]

/-- C4 witness: the share code for `(\x7b"v":1,"zoom":3\x7d)` decodes to an
object with `v = 1`, and applying it runs the four individual field
applications with no error. -/
theorem c4_witness :
    jsTrim ("eyJ2IjoxLCJ6b29tIjozfQ==".data) ≠ [] ∧
    decodeShare (jsTrim ("eyJ2IjoxLCJ6b29tIjozfQ==".data)) =
      some (JVal.obj [("v".data, JVal.num 1), ("zoom".data, JVal.num 3)]) ∧
    applySettings ("eyJ2IjoxLCJ6b29tIjozfQ==".data) ⟨11, 22, 33, 44⟩ =
      (applyZoom [("v".data, JVal.num 1), ("zoom".data, JVal.num 3)]
        (applyGy [("v".data, JVal.num 1), ("zoom".data, JVal.num 3)]
          (applyGx [("v".data, JVal.num 1), ("zoom".data, JVal.num 3)]
            (applyPix [("v".data, JVal.num 1), ("zoom".data, JVal.num 3)]
              ⟨11, 22, 33, 44⟩))), false) :=
  ⟨by decide, by rfl,
    (c4_amended_validation ("eyJ2IjoxLCJ6b29tIjozfQ==".data) ⟨11, 22, 33, 44⟩).2.1
      [("v".data, JVal.num 1), ("zoom".data, JVal.num 3)]
      (by decide) (by rfl) (by rfl)⟩

end W2P
